import Mathlib

/-!
Verification of the allocation optimizer (`optimizer/optimizer.py`) and the
market-data retry loop (`data_gatherer/data_gatherer.py`).

The numeric code is embedded over the real numbers: `numpy` arrays become
`List ℝ`, `np.matmul` of a matrix with a vector becomes a per-row dot
product, `scipy.stats.mstats.gmean` becomes `exp (mean (log ·))` (which is
what scipy computes), and Python's float `pow` becomes real `rpow`.
Division by zero follows the Lean convention `x / 0 = 0`.
-/

namespace Finance

/-- Dot product of two lists, as `np.matmul` on two 1-d arrays. -/
def dot (xs ys : List ℝ) : ℝ := (List.zipWith (· * ·) xs ys).sum

/-- Embeds `np.matmul(data_matrix, allocation_array)`: per-day portfolio returns. -/
def dailyReturns (data_matrix : List (List ℝ)) (allocation_array : List ℝ) : List ℝ :=
  data_matrix.map (fun row => dot row allocation_array)

/-- Embeds `pow(1 - np.matmul(allocation_array, expense_array), 1 / 253)`. -/
noncomputable def expenseFactor (allocation_array expense_array : List ℝ) : ℝ :=
  (1 - dot allocation_array expense_array) ^ ((253:ℝ)⁻¹)

/-- Embeds `scipy.stats.mstats.gmean`, which computes `exp(mean(log xs))`. -/
noncomputable def gmean (xs : List ℝ) : ℝ :=
  Real.exp ((xs.map Real.log).sum / xs.length)

/-- The expense-adjusted per-day returns: `daily_returns *= expenses`. -/
noncomputable def adjustedReturns (data_matrix : List (List ℝ))
    (allocation_array expense_array : List ℝ) : List ℝ :=
  (dailyReturns data_matrix allocation_array).map
    (· * expenseFactor allocation_array expense_array)

/-- Embeds `mean_return = gmean(daily_returns)` after the expense adjustment. -/
noncomputable def meanReturn (data_matrix : List (List ℝ))
    (allocation_array expense_array : List ℝ) : ℝ :=
  gmean (adjustedReturns data_matrix allocation_array expense_array)

/-- Embeds `downside_risk = sqrt(mean(clip(daily_returns - required_return, None, 0)²))`. -/
noncomputable def downsideRisk (data_matrix : List (List ℝ)) (allocation_array : List ℝ)
    (required_return : ℝ) (expense_array : List ℝ) : ℝ :=
  let daily := adjustedReturns data_matrix allocation_array expense_array
  Real.sqrt (((daily.map (fun r => (min (r - required_return) 0) ^ 2)).sum) / daily.length)

/-- The rows of `data_matrix` on the days whose adjusted return fell below
`required_return` (`below_desired` filtering in `_scoreAllocation`). -/
noncomputable def badRows (data_matrix : List (List ℝ)) (allocation_array : List ℝ)
    (required_return : ℝ) (expense_array : List ℝ) : List (List ℝ) :=
  ((data_matrix.zip (adjustedReturns data_matrix allocation_array expense_array)).filter
    (fun p => p.2 < required_return)).map Prod.fst

/-- Mean of column `i` of a list of rows (used by `np.corrcoef(·, rowvar=False)`). -/
noncomputable def colMean (rows : List (List ℝ)) (i : ℕ) : ℝ :=
  ((rows.map (fun r => r.getD i 0)).sum) / rows.length

/-- Population covariance of columns `i` and `j` of a list of rows. -/
noncomputable def covar (rows : List (List ℝ)) (i j : ℕ) : ℝ :=
  ((rows.map (fun r =>
    (r.getD i 0 - colMean rows i) * (r.getD j 0 - colMean rows j))).sum) / rows.length

/-- Entry `(i, j)` of `np.corrcoef(rows, rowvar=False)`, valid on at least
two rows — there `corrcoef` is an honest matrix and this entrywise formula is
its value (the sample-covariance normalization cancels). On fewer than two
rows numpy instead returns a 0-d array and the caller's `np.matmul` raises;
that exception path is modelled by `scoreAllocationE`, not by this total
function. -/
noncomputable def correl (rows : List (List ℝ)) (i j : ℕ) : ℝ :=
  covar rows i j / (Real.sqrt (covar rows i i) * Real.sqrt (covar rows j j))

/-- Embeds `np.matmul(np.matmul(allocation_array, corr), allocation_array)`:
the quadratic form of the correlation matrix at the allocation. -/
noncomputable def quadForm (rows : List (List ℝ)) (a : List ℝ) : ℝ :=
  ((List.range a.length).map (fun j =>
    (((List.range a.length).map (fun i => a.getD i 0 * correl rows i j)).sum) * a.getD j 0)).sum

/-- Embeds `downside_correl` as computed by `_scoreAllocation`: the quadratic form of
the bad-day correlation matrix when `use_downside_correl` is set and the
allocation array has more than one entry; `1` otherwise. This is the
value-level model used by the total `scoreAllocation`: where `badRows` has
fewer than two rows the Python code raises `ValueError` instead of producing
any value, which `scoreAllocationE` captures. -/
noncomputable def downsideCorrel (data_matrix : List (List ℝ)) (allocation_array : List ℝ)
    (required_return : ℝ) (expense_array : List ℝ) (use_downside_correl : Bool) : ℝ :=
  if use_downside_correl = false then 1
  else if 1 < allocation_array.length then
    quadForm (badRows data_matrix allocation_array required_return expense_array)
      allocation_array
  else 1

/-- Embeds `_scoreAllocation` at the value level: returns the pair
`(score, allocation_array)` (the Python dict carrying the score and the
allocation array). This model is total; the faithful error-aware scorer is
`scoreAllocationE`, which raises on the degenerate-correlation inputs and
agrees with this function on every input on which the code returns. -/
noncomputable def scoreAllocation (data_matrix : List (List ℝ)) (allocation_array : List ℝ)
    (required_return : ℝ) (expense_array : List ℝ) (use_downside_correl : Bool) :
    ℝ × List ℝ :=
  let mean_return := meanReturn data_matrix allocation_array expense_array
  if mean_return < required_return then
    (mean_return - required_return, allocation_array)
  else
    let downside_risk := downsideRisk data_matrix allocation_array required_return expense_array
    let downside_correl :=
      downsideCorrel data_matrix allocation_array required_return expense_array
        use_downside_correl
    ((mean_return - required_return) / (downside_risk * downside_correl), allocation_array)

/-- One candidate move inside `findOptimalAllocation`:
`curr = np.copy(best); curr[sell_id] -= trading_increment; curr[buy_id] += trading_increment`. -/
def mkCandidate (a : List ℝ) (s : ℝ) (sell buy : ℕ) : List ℝ :=
  let a1 := a.set sell (a.getD sell 0 - s)
  a1.set buy (a1.getD buy 0 + s)

/-- The neighborhood enumeration of `findOptimalAllocation`: the two nested
loops over `sell_id` and `buy_id` with their `continue` guards, tagged with
the generating pair. -/
noncomputable def neighborhood (a : List ℝ) (s : ℝ) : List ((ℕ × ℕ) × List ℝ) :=
  (List.range a.length).flatMap (fun sell =>
    if a.getD sell 0 < s then []
    else (List.range a.length).flatMap (fun buy =>
      if buy = sell then []
      else [((sell, buy), mkCandidate a s sell buy)]))

/-- The controller state of `findOptimalAllocation`: `best`, `best_score`,
`trading_increment`, plus a ghost counter `halvings` recording how many times
the increment was halved (observable through the diagnostic print on every
no-improvement round). -/
structure SearchState where
  best : List ℝ
  bestScore : ℝ
  inc : ℝ
  halvings : ℕ

/-- One round's result batch: `results = map(_unwrapAndScore, map_iterable)`. -/
noncomputable def roundResults (data_matrix : List (List ℝ)) (required_return : ℝ)
    (expense_array : List ℝ) (use_downside_correl : Bool) (s : SearchState) :
    List (ℝ × List ℝ) :=
  (neighborhood s.best s.inc).map (fun pc =>
    scoreAllocation data_matrix pc.2 required_return expense_array use_downside_correl)

/-- Embeds the round reduction: `functools.reduce` of the lambda keeping `x`
when its score strictly exceeds the score of `y` and taking `y` otherwise,
seeded with a score of `-inf`. The seed is modelled by `none`: it loses every
comparison against a real result. -/
noncomputable def bestResult (results : List (ℝ × List ℝ)) : Option (ℝ × List ℝ) :=
  results.foldl (fun acc y =>
    match acc with
    | none => some y
    | some x => if x.1 > y.1 then some x else some y) none

/-- One iteration of the `while trading_increment >= 1 / 128` loop body:
adopt the round's best result when its score strictly beats `best_score`,
otherwise halve the increment. A `none` reduction result is the untouched
`-inf` seed, which never beats `best_score`. -/
noncomputable def controllerStep (data_matrix : List (List ℝ)) (required_return : ℝ)
    (expense_array : List ℝ) (use_downside_correl : Bool) (s : SearchState) : SearchState :=
  match bestResult (roundResults data_matrix required_return expense_array
      use_downside_correl s) with
  | some br =>
      if br.1 > s.bestScore then ⟨br.2, br.1, s.inc, s.halvings⟩
      else ⟨s.best, s.bestScore, s.inc / 2, s.halvings + 1⟩
  | none => ⟨s.best, s.bestScore, s.inc / 2, s.halvings + 1⟩

/-- Embeds `best = np.zeros(len(ticker_tuple)); best[0] = 1.0`. -/
def initAlloc (n : ℕ) : List ℝ := (List.replicate n (0:ℝ)).set 0 1

/-- The controller state at the top of the loop: the seed allocation, its
score, `trading_increment = 1.0`, and no halvings yet. -/
noncomputable def initState (data_matrix : List (List ℝ)) (required_return : ℝ)
    (expense_array : List ℝ) (use_downside_correl : Bool) (n : ℕ) : SearchState :=
  ⟨initAlloc n,
   (scoreAllocation data_matrix (initAlloc n) required_return expense_array
     use_downside_correl).1,
   1, 0⟩

/-- The `while trading_increment >= 1 / 128` loop, with explicit fuel.
Returns `(best_score, best, halvings)` once the increment drops below the
resolution floor; `none` means the fuel ran out before the loop exited. -/
noncomputable def runSearch (data_matrix : List (List ℝ)) (required_return : ℝ)
    (expense_array : List ℝ) (use_downside_correl : Bool) :
    ℕ → SearchState → Option (ℝ × List ℝ × ℕ)
  | 0, _ => none
  | fuel + 1, s =>
      if s.inc ≥ 1 / 128 then
        runSearch data_matrix required_return expense_array use_downside_correl fuel
          (controllerStep data_matrix required_return expense_array use_downside_correl s)
      else some (s.bestScore, s.best, s.halvings)

/-- Embeds `findOptimalAllocation`: run the search from the seed state and pair the
final allocation with the tickers (`allocation_map`). -/
noncomputable def findOptimalAllocation (data_matrix : List (List ℝ))
    (ticker_tuple : List String) (required_return : ℝ) (expense_array : List ℝ)
    (use_downside_correl : Bool) (fuel : ℕ) : Option (ℝ × List (String × ℝ)) :=
  (runSearch data_matrix required_return expense_array use_downside_correl fuel
      (initState data_matrix required_return expense_array use_downside_correl
        ticker_tuple.length)).map
    (fun r => (r.1, ticker_tuple.zip r.2.1))

/-- The one exception `_scoreAllocation` can raise: when `use_downside_correl`
is set and there is more than one instrument but fewer than two bad-day rows,
`np.corrcoef` returns a 0-d array (its scalar-covariance fallback) and the
following `np.matmul` raises `ValueError`. -/
inductive ScoreError where
  | degenerateCorrel
deriving DecidableEq

/-- Error-aware `_scoreAllocation`: identical to `scoreAllocation` except
that it takes the exception path on the degenerate-correlation inputs, where
the Python code raises `ValueError` and produces no score at all. On every
input on which it returns, it agrees with the value-level model (see
`scoreAllocationE_ok`). -/
noncomputable def scoreAllocationE (data_matrix : List (List ℝ)) (allocation_array : List ℝ)
    (required_return : ℝ) (expense_array : List ℝ) (use_downside_correl : Bool) :
    Except ScoreError (ℝ × List ℝ) :=
  let mean_return := meanReturn data_matrix allocation_array expense_array
  if mean_return < required_return then
    .ok (mean_return - required_return, allocation_array)
  else
    let downside_risk := downsideRisk data_matrix allocation_array required_return expense_array
    if use_downside_correl = false then
      .ok ((mean_return - required_return) / (downside_risk * 1), allocation_array)
    else if 1 < allocation_array.length then
      if (badRows data_matrix allocation_array required_return expense_array).length < 2 then
        .error .degenerateCorrel
      else
        .ok ((mean_return - required_return) /
          (downside_risk *
            quadForm (badRows data_matrix allocation_array required_return expense_array)
              allocation_array), allocation_array)
    else
      .ok ((mean_return - required_return) / (downside_risk * 1), allocation_array)

/-- The sequential `map(_unwrapAndScore, map_iterable)` with exception
propagation: Python evaluates the candidates left to right and the first
raised `ValueError` escapes the whole round. -/
noncomputable def mapScoresE (data_matrix : List (List ℝ)) (required_return : ℝ)
    (expense_array : List ℝ) (use_downside_correl : Bool) :
    List ((ℕ × ℕ) × List ℝ) → Except ScoreError (List (ℝ × List ℝ))
  | [] => .ok []
  | pc :: rest =>
      match scoreAllocationE data_matrix pc.2 required_return expense_array
          use_downside_correl with
      | .error err => .error err
      | .ok r =>
          match mapScoresE data_matrix required_return expense_array use_downside_correl
              rest with
          | .error err => .error err
          | .ok rs => .ok (r :: rs)

/-- Error-aware loop body: score the round's candidates (an exception aborts
the whole search), then adopt or halve exactly as `controllerStep` does. -/
noncomputable def controllerStepE (data_matrix : List (List ℝ)) (required_return : ℝ)
    (expense_array : List ℝ) (use_downside_correl : Bool) (s : SearchState) :
    Except ScoreError SearchState :=
  match mapScoresE data_matrix required_return expense_array use_downside_correl
      (neighborhood s.best s.inc) with
  | .error err => .error err
  | .ok results =>
      match bestResult results with
      | some br =>
          if br.1 > s.bestScore then .ok ⟨br.2, br.1, s.inc, s.halvings⟩
          else .ok ⟨s.best, s.bestScore, s.inc / 2, s.halvings + 1⟩
      | none => .ok ⟨s.best, s.bestScore, s.inc / 2, s.halvings + 1⟩

/-- Error-aware `while` loop: an uncaught exception from any round's scoring
aborts the search; otherwise the loop behaves as `runSearch`. -/
noncomputable def runSearchE (data_matrix : List (List ℝ)) (required_return : ℝ)
    (expense_array : List ℝ) (use_downside_correl : Bool) :
    ℕ → SearchState → Except ScoreError (Option (ℝ × List ℝ × ℕ))
  | 0, _ => .ok none
  | fuel + 1, s =>
      if s.inc ≥ 1 / 128 then
        match controllerStepE data_matrix required_return expense_array
            use_downside_correl s with
        | .error err => .error err
        | .ok next => runSearchE data_matrix required_return expense_array
            use_downside_correl fuel next
      else .ok (some (s.bestScore, s.best, s.halvings))

/-- Error-aware `findOptimalAllocation`: the seed allocation is scored first
(line 100 of the source), so the degenerate-correlation `ValueError` can
already abort the search before any round runs. -/
noncomputable def findOptimalAllocationE (data_matrix : List (List ℝ)) (required_return : ℝ)
    (expense_array : List ℝ) (use_downside_correl : Bool) (n : ℕ) (fuel : ℕ) :
    Except ScoreError (Option (ℝ × List ℝ × ℕ)) :=
  match scoreAllocationE data_matrix (initAlloc n) required_return expense_array
      use_downside_correl with
  | .error err => .error err
  | .ok r0 => runSearchE data_matrix required_return expense_array use_downside_correl
      fuel ⟨initAlloc n, r0.1, 1, 0⟩

/-- Modelled from the spec side of C6: the number of instruments carrying a
nonzero weight in the allocation ("more than one instrument has nonzero
weight"). The code itself never computes this. -/
noncomputable def nonzeroWeights (a : List ℝ) : ℕ :=
  (a.filter (fun x => decide (x ≠ 0))).length

/-- Modelled from the spec side of C6: the downside-correlation factor the
claim describes, gated on the number of nonzero weights rather than on the
length of the allocation array. -/
noncomputable def specDownsideCorrel (data_matrix : List (List ℝ)) (allocation_array : List ℝ)
    (required_return : ℝ) (expense_array : List ℝ) (use_downside_correl : Bool) : ℝ :=
  if use_downside_correl = true ∧ 1 < nonzeroWeights allocation_array then
    quadForm (badRows data_matrix allocation_array required_return expense_array)
      allocation_array
  else 1

/-- An allocation expressed as whole step counts at a given increment:
component `i` holds `c[i] * inc` of the capital. -/
def scaleCounts (c : List ℕ) (inc : ℝ) : List ℝ := c.map (fun t : ℕ => (t:ℝ) * inc)

/-- All lists of `n` naturals summing to `m` (the step-count lattice that the
controller's allocations live on at a fixed trading increment). -/
def latticeLists : ℕ → ℕ → List (List ℕ)
  | 0, 0 => [[]]
  | 0, _ + 1 => []
  | n + 1, m => (List.range (m + 1)).flatMap (fun t =>
      (latticeLists n (m - t)).map (fun c => t :: c))

/-- The finitely many scores attainable on the step-count lattice of a given
size — at a fixed trading increment the controller's current score always
lies among (or below) these. -/
noncomputable def latticeScores (data_matrix : List (List ℝ)) (required_return : ℝ)
    (expense_array : List ℝ) (use_downside_correl : Bool) (n N : ℕ) (inc : ℝ) : List ℝ :=
  (latticeLists n N).map (fun c =>
    (scoreAllocation data_matrix (scaleCounts c inc) required_return expense_array
      use_downside_correl).1)

end Finance

namespace Gatherer

/-- A parsed JSON object, as an association list of string keys and values. -/
abbrev Dict := List (String × String)

/-- Key membership, `k in result` on a Python dict. -/
def containsKey (d : Dict) (k : String) : Bool := d.any (fun kv => kv.1 = k)

/-- Embeds `aggregated_results.update(result)`: entries of `d` override entries of `a`. -/
def dictUpdate (a d : Dict) : Dict :=
  a.filter (fun kv => !containsKey d kv.1) ++ d

/-- One HTTP response, as seen by `_callApi`: the status code and the result
of `.json()` (`none` when the body fails to parse). -/
structure Response where
  status : ℕ
  json : Option Dict

/-- The ways `_callApi` raises. -/
inductive ApiError where
  | tooMany
  | badStatus (code : ℕ)
  | parseError
  | errorMessage
deriving DecidableEq

/-- The retry loop of `_callApi` over a fixed trace of responses
(`responses i` is what `requests.get` returns on the `i`-th attempt).
`attempts` is the counter's current value; the structural `fuel` is only a
recursion bound and never runs out when it starts at `120` (the
`attempts >= 120` guard fires first, and the `fuel = 0` fallback raises the
same `Too many attempts` error). -/
def callApiGo (responses : ℕ → Response) (required_key : String) :
    ℕ → ℕ → Dict → Except ApiError Dict
  | 0, _, _ => .error .tooMany
  | fuel + 1, attempts, aggregated_results =>
      if attempts + 1 ≥ 120 then .error .tooMany
      else if (responses (attempts + 1)).status = 503 then
        callApiGo responses required_key fuel (attempts + 1) aggregated_results
      else if (responses (attempts + 1)).status ≠ 200 then
        .error (.badStatus (responses (attempts + 1)).status)
      else match (responses (attempts + 1)).json with
        | none => .error .parseError
        | some result =>
            if containsKey result "Error Message" then .error .errorMessage
            else if ¬ containsKey result required_key then
              callApiGo responses required_key fuel (attempts + 1)
                (dictUpdate aggregated_results result)
            else .ok result

/-- Embeds `_callApi(request, required_key)`, starting from `attempts = 0` and an
empty `aggregated_results`. -/
def callApi (responses : ℕ → Response) (required_key : String) : Except ApiError Dict :=
  callApiGo responses required_key 120 0 []

end Gatherer

namespace Finance

theorem mem_if_nil {α : Type} {c : Prop} [Decidable c] {x : α} {l : List α} :
    (x ∈ if c then ([] : List α) else l) ↔ ¬ c ∧ x ∈ l := by
  split <;> simp [*]

/-- Membership in the neighborhood enumeration: exactly the ordered pairs of
distinct indices whose sell leg holds at least the step, each paired with the
single-trade candidate. -/
theorem mem_neighborhood {a : List ℝ} {s : ℝ} {sell buy : ℕ} {c : List ℝ} :
    ((sell, buy), c) ∈ neighborhood a s ↔
      sell < a.length ∧ buy < a.length ∧ buy ≠ sell ∧ ¬ a.getD sell 0 < s ∧
        c = mkCandidate a s sell buy := by
  simp only [neighborhood, List.mem_flatMap, List.mem_range, mem_if_nil,
    List.mem_singleton, Prod.mk.injEq]
  constructor
  · rintro ⟨x, hx, hguard, y, hy, hne, ⟨rfl, rfl⟩, rfl⟩
    exact ⟨hx, hy, hne, hguard, rfl⟩
  · rintro ⟨hsell, hbuy, hne, hguard, rfl⟩
    exact ⟨sell, hsell, hguard, buy, hbuy, hne, ⟨rfl, rfl⟩, rfl⟩

theorem neighborhood_inner_fst {a : List ℝ} {s : ℝ} {sell : ℕ} {x : ℕ × ℕ}
    (hx : x ∈ List.map Prod.fst
      (if a.getD sell 0 < s then ([] : List ((ℕ × ℕ) × List ℝ))
       else (List.range a.length).flatMap (fun buy =>
         if buy = sell then []
         else [((sell, buy), mkCandidate a s sell buy)]))) :
    x.1 = sell := by
  split at hx
  · simp at hx
  · rw [List.map_flatMap] at hx
    rcases List.mem_flatMap.1 hx with ⟨buy, _, hmem⟩
    rcases List.mem_map.1 hmem with ⟨u, hu, rfl⟩
    rw [mem_if_nil] at hu
    rw [List.mem_singleton] at hu
    rcases hu with ⟨-, rfl⟩
    rfl

/-- The generating pairs of the neighborhood contain no duplicates: each
eligible `(sell, buy)` pair appears exactly once. -/
theorem neighborhood_pairs_nodup (a : List ℝ) (s : ℝ) :
    ((neighborhood a s).map Prod.fst).Nodup := by
  unfold neighborhood
  rw [List.map_flatMap]
  rw [List.nodup_flatMap]
  constructor
  · intro sell _
    split
    · simp
    · rw [List.map_flatMap, List.nodup_flatMap]
      constructor
      · intro buy _
        split <;> simp
      · refine List.Pairwise.imp ?_ (List.pairwise_lt_range _)
        intro b₁ b₂ hlt
        intro x hx₁ hx₂
        rcases List.mem_map.1 hx₁ with ⟨u, hu, rfl⟩
        rcases List.mem_map.1 hx₂ with ⟨v, hv, hvu⟩
        rw [mem_if_nil] at hu hv
        rcases hu with ⟨-, hu⟩; rcases hv with ⟨-, hv⟩
        rw [List.mem_singleton] at hu hv
        subst hu; subst hv
        simp only [Prod.mk.injEq] at hvu
        omega
  · refine List.Pairwise.imp ?_ (List.pairwise_lt_range _)
    intro s₁ s₂ hlt
    intro x hx₁ hx₂
    have h₁ : x.1 = s₁ := neighborhood_inner_fst hx₁
    have h₂ : x.1 = s₂ := neighborhood_inner_fst hx₂
    omega

/-- Summing a list after overwriting one entry (monoid version, subtraction
free, usable over both `ℝ` and `ℕ`). -/
theorem sum_set_add {M : Type} [AddCommMonoid M] :
    ∀ (l : List M) (i : ℕ) (v : M), i < l.length →
      (l.set i v).sum + l.getD i 0 = l.sum + v
  | x :: t, 0, v, _ => by
      simp [add_comm, add_left_comm]
  | x :: t, i + 1, v, h => by
      simp only [List.set_cons_succ, List.sum_cons, List.getD_cons_succ]
      rw [add_assoc, sum_set_add t i v (by simpa using h), add_assoc]

/-- Every component of a list with one entry overwritten is either an old
component or the new value. -/
theorem mem_set_cases {α : Type} {l : List α} {i : ℕ} {v x : α}
    (h : x ∈ l.set i v) : x ∈ l ∨ x = v :=
  List.mem_or_eq_of_mem_set h

/-- Candidates preserve the total allocation: a single trade moves capital
but never creates or destroys it. -/
theorem mkCandidate_sum {a : List ℝ} {s : ℝ} {sell buy : ℕ}
    (hsell : sell < a.length) (hbuy : buy < a.length) (_hne : buy ≠ sell) :
    (mkCandidate a s sell buy).sum = a.sum := by
  unfold mkCandidate
  have h1 : ((a.set sell (a.getD sell 0 - s)).set buy
        ((a.set sell (a.getD sell 0 - s)).getD buy 0 + s)).sum +
        (a.set sell (a.getD sell 0 - s)).getD buy 0 =
      (a.set sell (a.getD sell 0 - s)).sum +
        ((a.set sell (a.getD sell 0 - s)).getD buy 0 + s) :=
    sum_set_add _ buy _ (by simpa using hbuy)
  have h2 : (a.set sell (a.getD sell 0 - s)).sum + a.getD sell 0 =
      a.sum + (a.getD sell 0 - s) := sum_set_add a sell _ hsell
  have := h1
  linarith

/-- C3: the neighborhood generator yields exactly one candidate per ordered
pair `(sell, buy)` of distinct instruments with `a[sell] ≥ stepSize`, and —
for a nonnegative step size — every candidate of a nonnegative allocation
summing to `1` is nonnegative and still sums to `1`. -/
theorem neighborhood_complete_and_conservative (a : List ℝ) (s : ℝ)
    (hs : 0 ≤ s) (hpos : ∀ x ∈ a, 0 ≤ x) (hsum : a.sum = 1) :
    (∀ sell buy : ℕ, ∀ c : List ℝ,
      (((sell, buy), c) ∈ neighborhood a s ↔
        sell < a.length ∧ buy < a.length ∧ buy ≠ sell ∧ ¬ a.getD sell 0 < s ∧
          c = mkCandidate a s sell buy)) ∧
    ((neighborhood a s).map Prod.fst).Nodup ∧
    (∀ pc ∈ neighborhood a s, pc.2.sum = 1 ∧ ∀ x ∈ pc.2, 0 ≤ x) := by
  refine ⟨fun sell buy c => mem_neighborhood, neighborhood_pairs_nodup a s, ?_⟩
  rintro ⟨⟨sell, buy⟩, c⟩ hmem
  rcases mem_neighborhood.1 hmem with ⟨hsell, hbuy, hne, hguard, rfl⟩
  constructor
  · rw [mkCandidate_sum hsell hbuy hne, hsum]
  · intro x hx
    unfold mkCandidate at hx
    rcases mem_set_cases hx with hx' | rfl
    · rcases mem_set_cases hx' with hx'' | rfl
      · exact hpos x hx''
      · have : s ≤ a.getD sell 0 := not_lt.1 hguard
        linarith
    · have hbuyval : 0 ≤ (a.set sell (a.getD sell 0 - s)).getD buy 0 := by
        rcases eq_or_ne buy sell with rfl | hne'
        · exact absurd rfl hne
        · have hgd : (a.set sell (a.getD sell 0 - s)).getD buy 0 = a.getD buy 0 := by
            simp [List.getD_eq_getElem?_getD, List.getElem?_set_ne (Ne.symm hne')]
          rw [hgd, List.getD_eq_getElem a 0 hbuy]
          exact hpos _ (List.getElem_mem hbuy)
      linarith

/-- Witness for C3 at `a = [1, 0]`, `s = 1/2`. -/
theorem neighborhood_complete_and_conservative_witness :
    ((0:ℝ) ≤ 1/2 ∧ (∀ x ∈ [(1:ℝ), 0], 0 ≤ x) ∧ [(1:ℝ), 0].sum = 1) ∧
    ((∀ sell buy : ℕ, ∀ c : List ℝ,
      (((sell, buy), c) ∈ neighborhood [(1:ℝ), 0] (1/2) ↔
        sell < [(1:ℝ), 0].length ∧ buy < [(1:ℝ), 0].length ∧ buy ≠ sell ∧
          ¬ [(1:ℝ), 0].getD sell 0 < 1/2 ∧
          c = mkCandidate [(1:ℝ), 0] (1/2) sell buy)) ∧
    ((neighborhood [(1:ℝ), 0] (1/2)).map Prod.fst).Nodup ∧
    (∀ pc ∈ neighborhood [(1:ℝ), 0] (1/2), pc.2.sum = 1 ∧ ∀ x ∈ pc.2, 0 ≤ x)) := by
  have h1 : (0:ℝ) ≤ 1/2 := by norm_num
  have h2 : ∀ x ∈ [(1:ℝ), 0], 0 ≤ x := by
    intro x hx
    simp only [List.mem_cons, List.not_mem_nil, or_false] at hx
    rcases hx with rfl | rfl <;> norm_num
  have h3 : [(1:ℝ), 0].sum = 1 := by norm_num
  exact ⟨⟨h1, h2, h3⟩,
    neighborhood_complete_and_conservative [(1:ℝ), 0] (1/2) h1 h2 h3⟩

/-- Counterexample forcing the step-size restriction in C3: at step size
`-1` from the allocation `[1, 0]`, the generated candidate `[2, -1]` has a
negative component. -/
theorem neighborhood_negative_step_counterexample :
    ((0, 1), [(2:ℝ), -1]) ∈ neighborhood [(1:ℝ), 0] (-1) ∧
      ¬ (0:ℝ) ≤ -1 := by
  constructor
  · refine mem_neighborhood.2 ⟨by norm_num, by norm_num, by norm_num, by norm_num, ?_⟩
    unfold mkCandidate
    norm_num
  · norm_num

/-- C4: across every controller round the current score never decreases;
the controller adopts the round's best result — keeping the step size —
exactly when its score strictly exceeds the current score, and otherwise
keeps the allocation and score and halves the step size. -/
theorem controller_monotone_and_adoption (data_matrix : List (List ℝ))
    (required_return : ℝ) (expense_array : List ℝ) (use_downside_correl : Bool)
    (s : SearchState) :
    s.bestScore ≤
      (controllerStep data_matrix required_return expense_array use_downside_correl
        s).bestScore ∧
    (∀ br, bestResult (roundResults data_matrix required_return expense_array
        use_downside_correl s) = some br →
      (br.1 > s.bestScore →
        controllerStep data_matrix required_return expense_array use_downside_correl s =
          ⟨br.2, br.1, s.inc, s.halvings⟩) ∧
      (¬ br.1 > s.bestScore →
        controllerStep data_matrix required_return expense_array use_downside_correl s =
          ⟨s.best, s.bestScore, s.inc / 2, s.halvings + 1⟩)) ∧
    (bestResult (roundResults data_matrix required_return expense_array
        use_downside_correl s) = none →
      controllerStep data_matrix required_return expense_array use_downside_correl s =
        ⟨s.best, s.bestScore, s.inc / 2, s.halvings + 1⟩) := by
  refine ⟨?_, ?_, ?_⟩
  · rcases h : bestResult (roundResults data_matrix required_return expense_array
        use_downside_correl s) with _ | br
    · simp [controllerStep, h]
    · by_cases hgt : br.1 > s.bestScore
      · simp only [controllerStep, h, if_pos hgt]
        exact hgt.le
      · simp [controllerStep, h, hgt]
  · intro br hbr
    constructor
    · intro hgt
      simp [controllerStep, hbr, hgt]
    · intro hng
      simp [controllerStep, hbr, hng]
  · intro hn
    simp [controllerStep, hn]

/-- A one-instrument universe generates no candidates: the only `buy` index
coincides with the `sell` index and is skipped. -/
theorem neighborhood_singleton (x s : ℝ) : neighborhood [x] s = [] := by
  simp [neighborhood]

/-- With a singleton allocation every round is a no-improvement round. -/
theorem controllerStep_singleton (data_matrix : List (List ℝ)) (required_return : ℝ)
    (expense_array : List ℝ) (use_downside_correl : Bool) (s : SearchState) (x : ℝ)
    (h : s.best = [x]) :
    controllerStep data_matrix required_return expense_array use_downside_correl s =
      ⟨s.best, s.bestScore, s.inc / 2, s.halvings + 1⟩ := by
  have hr : roundResults data_matrix required_return expense_array use_downside_correl
      s = [] := by
    simp [roundResults, h, neighborhood_singleton]
  simp [controllerStep, hr, bestResult]

/-- Witness for C4 at the singleton state `⟨[1], 0, 1, 0⟩` over the matrix
`[[1]]`: the round has no candidates, so the step keeps the allocation and
score and halves the increment. -/
theorem controller_monotone_and_adoption_witness :
    bestResult (roundResults [[1]] 0 [0] true ⟨[1], 0, 1, 0⟩) = none ∧
      controllerStep [[1]] 0 [0] true ⟨[1], 0, 1, 0⟩ = ⟨[1], 0, 1/2, 1⟩ := by
  have hn : bestResult (roundResults [[1]] 0 [0] true ⟨[1], 0, 1, 0⟩) = none := by
    simp [roundResults, neighborhood_singleton, bestResult]
  refine ⟨hn, ?_⟩
  have := (controller_monotone_and_adoption [[1]] 0 [0] true ⟨[1], 0, 1, 0⟩).2.2 hn
  simpa using this

/-- C1 (amended): for every allocation whose mean return is at least the
required return — except on the degenerate-correlation inputs, where
`_scoreAllocation` raises `ValueError` instead of returning — the scorer
returns `(meanReturn − requiredReturn) / (downsideRisk × downsideCorrel)`,
where `meanReturn` is the geometric mean of the expense-adjusted per-day
portfolio returns and `downsideRisk` is the root of the mean squared
shortfall `min (dailyReturn − requiredReturn) 0` over all days. -/
theorem score_eq_sortino_of_target_met (data_matrix : List (List ℝ))
    (allocation_array : List ℝ) (required_return : ℝ) (expense_array : List ℝ)
    (use_downside_correl : Bool)
    (h1 : ¬ meanReturn data_matrix allocation_array expense_array < required_return)
    (h2 : ¬ (use_downside_correl = true ∧ 1 < allocation_array.length ∧
      (badRows data_matrix allocation_array required_return expense_array).length
        < 2)) :
    scoreAllocationE data_matrix allocation_array required_return expense_array
        use_downside_correl =
      .ok ((meanReturn data_matrix allocation_array expense_array - required_return) /
        (downsideRisk data_matrix allocation_array required_return expense_array *
          downsideCorrel data_matrix allocation_array required_return expense_array
            use_downside_correl), allocation_array) := by
  unfold scoreAllocationE
  rw [if_neg h1]
  cases use_downside_correl with
  | false => simp [downsideCorrel]
  | true =>
      by_cases h3 : 1 < allocation_array.length
      · have h4 : ¬ (badRows data_matrix allocation_array required_return
            expense_array).length < 2 := fun hh => h2 ⟨rfl, h3, hh⟩
        simp [h3, h4, downsideCorrel]
      · simp [h3, downsideCorrel]

/-- Witness for C1 at `data_matrix = [[1]]`, `allocation = [1]`,
`required_return = 0`, `expense_array = [0]`: the mean return is an
exponential, hence positive, and the single-instrument universe cannot take
the degenerate branch. -/
theorem score_eq_sortino_of_target_met_witness :
    (¬ meanReturn [[1]] [1] [0] < 0) ∧
    (¬ (true = true ∧ 1 < [(1:ℝ)].length ∧ (badRows [[1]] [1] 0 [0]).length < 2)) ∧
      scoreAllocationE [[1]] [1] 0 [0] true =
        .ok ((meanReturn [[1]] [1] [0] - 0) /
          (downsideRisk [[1]] [1] 0 [0] * downsideCorrel [[1]] [1] 0 [0] true),
          [1]) := by
  have h1 : ¬ meanReturn [[1]] [1] [0] < (0:ℝ) := by
    simp only [meanReturn, gmean]
    exact not_lt.mpr (Real.exp_pos _).le
  have h2 : ¬ (true = true ∧ 1 < [(1:ℝ)].length ∧
      (badRows [[1]] [1] 0 [0]).length < 2) := by
    simp
  exact ⟨h1, h2, score_eq_sortino_of_target_met [[1]] [1] 0 [0] true h1 h2⟩

/-- The degenerate-correlation exception on a concrete input: on `[[2, 2]]`
with the seed allocation `[1, 0]` and required return `1` the target is met,
there are no bad days, and the scorer raises. -/
theorem scoreE_error_on_no_bad_days :
    ¬ meanReturn [[(2:ℝ), 2]] [1, 0] [0, 0] < 1 ∧
      scoreAllocationE [[(2:ℝ), 2]] [1, 0] 1 [0, 0] true = .error .degenerateCorrel := by
  have hexp : expenseFactor [(1:ℝ), 0] [0, 0] = 1 := by
    norm_num [expenseFactor, dot, Real.one_rpow]
  have hadj : adjustedReturns [[(2:ℝ), 2]] [1, 0] [0, 0] = [2] := by
    norm_num [adjustedReturns, dailyReturns, dot, hexp]
  have h1 : ¬ meanReturn [[(2:ℝ), 2]] [1, 0] [0, 0] < 1 := by
    unfold meanReturn
    rw [hadj]
    unfold gmean
    rw [show ([(2:ℝ)].map Real.log).sum / ([(2:ℝ)].length : ℝ) = Real.log 2 by
      simp]
    rw [Real.exp_log (by norm_num)]
    norm_num
  have hbad : badRows [[(2:ℝ), 2]] [1, 0] 1 [0, 0] = [] := by
    unfold badRows
    rw [hadj]
    norm_num [List.filter]
  refine ⟨h1, ?_⟩
  unfold scoreAllocationE
  rw [if_neg h1]
  simp [hbad]

/-- Counterexample for C1 as stated: a target-met input on which
`_scoreAllocation` raises `ValueError` (from `np.matmul` over numpy's 0-d
`corrcoef` of zero bad-day rows) instead of returning the sortino formula. -/
theorem score_raises_counterexample :
    ¬ meanReturn [[(2:ℝ), 2]] [1, 0] [0, 0] < 1 ∧
      scoreAllocationE [[(2:ℝ), 2]] [1, 0] 1 [0, 0] true = .error .degenerateCorrel ∧
      scoreAllocationE [[(2:ℝ), 2]] [1, 0] 1 [0, 0] true ≠
        .ok ((meanReturn [[(2:ℝ), 2]] [1, 0] [0, 0] - 1) /
          (downsideRisk [[(2:ℝ), 2]] [1, 0] 1 [0, 0] *
            downsideCorrel [[(2:ℝ), 2]] [1, 0] 1 [0, 0] true), [1, 0]) := by
  refine ⟨scoreE_error_on_no_bad_days.1, scoreE_error_on_no_bad_days.2, ?_⟩
  rw [scoreE_error_on_no_bad_days.2]
  simp

/-- C2: for every allocation whose mean return is strictly below the required
return, `_scoreAllocation` short-circuits and returns exactly
`meanReturn − requiredReturn`. -/
theorem score_shortCircuit_of_target_missed (data_matrix : List (List ℝ))
    (allocation_array : List ℝ) (required_return : ℝ) (expense_array : List ℝ)
    (use_downside_correl : Bool)
    (h : meanReturn data_matrix allocation_array expense_array < required_return) :
    (scoreAllocation data_matrix allocation_array required_return expense_array
        use_downside_correl).1 =
      meanReturn data_matrix allocation_array expense_array - required_return := by
  simp [scoreAllocation, h]

/-- Witness for C2 at `data_matrix = [[1]]`, `allocation = [1]`,
`required_return = 2`, `expense_array = [0]`: the mean return evaluates to
`1 < 2`. -/
theorem score_shortCircuit_of_target_missed_witness :
    meanReturn [[1]] [1] [0] < 2 ∧
      (scoreAllocation [[1]] [1] 2 [0] true).1 = meanReturn [[1]] [1] [0] - 2 := by
  have h : meanReturn [[1]] [1] [0] < (2:ℝ) := by
    simp [meanReturn, gmean, adjustedReturns, dailyReturns, dot, expenseFactor,
      Real.one_rpow]
  exact ⟨h, score_shortCircuit_of_target_missed [[1]] [1] 2 [0] true h⟩

/-- The reduce of a nonempty batch is never the untouched `-inf` seed. -/
theorem bestResult_ne_none_aux :
    ∀ (t : List (ℝ × List ℝ)) (x : ℝ × List ℝ),
      ∃ y, t.foldl (fun acc y =>
        match acc with
        | none => some y
        | some x => if x.1 > y.1 then some x else some y) (some x) = some y
  | [], x => ⟨x, rfl⟩
  | h :: t, x => by
      simp only [List.foldl_cons]
      by_cases hx : x.1 > h.1
      · simpa [hx] using bestResult_ne_none_aux t x
      · simpa [hx] using bestResult_ne_none_aux t h

/-- The reduce returns the seed exactly on an empty batch. -/
theorem bestResult_eq_none_iff (rs : List (ℝ × List ℝ)) :
    bestResult rs = none ↔ rs = [] := by
  cases rs with
  | nil => simp [bestResult]
  | cons x t =>
      simp only [bestResult, List.foldl_cons]
      rcases bestResult_ne_none_aux t x with ⟨y, hy⟩
      simp [hy]

/-- Peeling the last element off the reduce, empty-prefix case. -/
theorem bestResult_append_none (rs : List (ℝ × List ℝ)) (y : ℝ × List ℝ)
    (h : bestResult rs = none) : bestResult (rs ++ [y]) = some y := by
  unfold bestResult at h ⊢
  rw [List.foldl_append, h]
  rfl

/-- Peeling the last element off the reduce, nonempty-prefix case. -/
theorem bestResult_append_some (rs : List (ℝ × List ℝ)) (y x : ℝ × List ℝ)
    (h : bestResult rs = some x) :
    bestResult (rs ++ [y]) = if x.1 > y.1 then some x else some y := by
  unfold bestResult at h ⊢
  rw [List.foldl_append, h]
  rfl

/-- C9: the reduce keeps the incumbent only on a strictly greater score, so
the selected result is the last result, in generation order, among those
attaining the maximal score. -/
theorem bestResult_is_last_argmax (rs : List (ℝ × List ℝ)) (br : ℝ × List ℝ)
    (h : bestResult rs = some br) :
    ∃ i, i < rs.length ∧ rs.getD i (0, []) = br ∧
      (∀ j, j < rs.length → (rs.getD j (0, [])).1 ≤ br.1) ∧
      (∀ j, i < j → j < rs.length → (rs.getD j (0, [])).1 < br.1) := by
  induction rs using List.reverseRecOn generalizing br with
  | nil => simp [bestResult] at h
  | append_singleton l y IH =>
      rcases hb : bestResult l with _ | x
      · have hl : l = [] := (bestResult_eq_none_iff l).1 hb
        subst hl
        rw [bestResult_append_none _ _ hb] at h
        cases h
        refine ⟨0, by simp, by simp, ?_, ?_⟩
        · intro j hj
          have hj0 : j = 0 := by
            simp only [List.nil_append, List.length_singleton] at hj
            omega
          subst hj0
          simp
        · intro j h0 hj
          simp only [List.nil_append, List.length_singleton] at hj
          omega
      · rw [bestResult_append_some _ _ _ hb] at h
        by_cases hxy : x.1 > y.1
        · rw [if_pos hxy] at h
          cases h
          rcases IH _ hb with ⟨i, hi, hget, hmax, hlast⟩
          refine ⟨i, by simp; omega, ?_, ?_, ?_⟩
          · rwa [List.getD_append _ _ _ _ hi]
          · intro j hj
            simp only [List.length_append, List.length_singleton] at hj
            rcases Nat.lt_or_ge j l.length with hj' | hj'
            · rw [List.getD_append _ _ _ _ hj']
              exact hmax j hj'
            · have : j = l.length := by omega
              subst this
              have : (l ++ [y]).getD l.length (0, []) = y := by
                simp [List.getD_eq_getElem?_getD]
              rw [this]
              exact hxy.le
          · intro j hij hj
            simp only [List.length_append, List.length_singleton] at hj
            rcases Nat.lt_or_ge j l.length with hj' | hj'
            · rw [List.getD_append _ _ _ _ hj']
              exact hlast j hij hj'
            · have : j = l.length := by omega
              subst this
              have : (l ++ [y]).getD l.length (0, []) = y := by
                simp [List.getD_eq_getElem?_getD]
              rw [this]
              exact hxy
        · rw [if_neg hxy] at h
          cases h
          rcases IH x hb with ⟨i, hi, hget, hmax, hlast⟩
          refine ⟨l.length, by simp, ?_, ?_, ?_⟩
          · simp [List.getD_eq_getElem?_getD]
          · intro j hj
            simp only [List.length_append, List.length_singleton] at hj
            rcases Nat.lt_or_ge j l.length with hj' | hj'
            · rw [List.getD_append _ _ _ _ hj']
              exact le_trans (hmax j hj') (not_lt.1 hxy)
            · have : j = l.length := by omega
              subst this
              have : (l ++ [y]).getD l.length (0, []) = y := by
                simp [List.getD_eq_getElem?_getD]
              rw [this]
          · intro j hij hj
            simp only [List.length_append, List.length_singleton] at hj
            omega

/-- Projecting the reduce onto scores: the fold computes the running maximum
of the scores seen so far. -/
theorem bestResult_score_proj :
    ∀ (rs : List (ℝ × List ℝ)) (acc : Option (ℝ × List ℝ)),
      (rs.foldl (fun acc y =>
        match acc with
        | none => some y
        | some x => if x.1 > y.1 then some x else some y) acc).map Prod.fst =
      (rs.map Prod.fst).foldl (fun acc y =>
        some (match acc with | none => y | some x => max x y)) (acc.map Prod.fst)
  | [], _ => rfl
  | y :: t, acc => by
      simp only [List.foldl_cons, List.map_cons]
      have hstep : ((fun (acc : Option (ℝ × List ℝ)) (y : ℝ × List ℝ) =>
          match acc with
          | none => some y
          | some x => if x.1 > y.1 then some x else some y) acc y).map Prod.fst =
          some ((fun (acc : Option ℝ) (y : ℝ) =>
            match acc with | none => y | some x => max x y) (acc.map Prod.fst) y.1) := by
        cases acc with
        | none => rfl
        | some x =>
            by_cases hx : x.1 > y.1
            · simp [hx, max_eq_left hx.le]
            · simp [hx, max_eq_right (not_lt.1 hx)]
      rw [bestResult_score_proj t _, hstep]

/-- C7 (amended): the score of the round's reduce is invariant under any
reordering of the result batch — only the accompanying allocation can
depend on the order, and only on ties. -/
theorem bestResult_score_perm (rs rs' : List (ℝ × List ℝ)) (h : rs.Perm rs') :
    (bestResult rs).map Prod.fst = (bestResult rs').map Prod.fst := by
  unfold bestResult
  rw [bestResult_score_proj, bestResult_score_proj]
  refine (h.map Prod.fst).foldl_eq' ?_ _
  intro x _ y _ z
  cases z with
  | none => simp [max_comm]
  | some a =>
      simp only [Option.some.injEq]
      rw [max_assoc, max_assoc, max_comm x y]

/-- Witness for C7's amended theorem on a concrete two-element batch and its
swap. -/
theorem bestResult_score_perm_witness :
    ([((1:ℝ), [(1:ℝ), 0]), (2, [0, 1])].Perm [((2:ℝ), [0, 1]), (1, [1, 0])]) ∧
      (bestResult [((1:ℝ), [(1:ℝ), 0]), (2, [0, 1])]).map Prod.fst =
        (bestResult [((2:ℝ), [0, 1]), (1, [1, 0])]).map Prod.fst := by
  have hp : [((1:ℝ), [(1:ℝ), 0]), (2, [0, 1])].Perm
      [((2:ℝ), [0, 1]), (1, [1, 0])] := List.Perm.swap _ _ _
  exact ⟨hp, bestResult_score_perm _ _ hp⟩

/-- Counterexample for C7 as stated: permuting a result batch with a score
tie changes the reduce's selected result, so the selection is not
independent of evaluation order. -/
theorem bestResult_order_dependent_counterexample :
    ([((1:ℝ), [(1:ℝ), 0]), (1, [0, 1])].Perm [((1:ℝ), [0, 1]), (1, [1, 0])]) ∧
      bestResult [((1:ℝ), [(1:ℝ), 0]), (1, [0, 1])] ≠
        bestResult [((1:ℝ), [0, 1]), (1, [1, 0])] := by
  constructor
  · exact List.Perm.swap _ _ _
  · norm_num [bestResult]

/-- Witness for C9 at the two-element batch `[(1, [1]), (2, [2])]`. -/
theorem bestResult_is_last_argmax_witness :
    bestResult [((1:ℝ), [(1:ℝ)]), (2, [2])] = some (2, [2]) ∧
      ∃ i, i < 2 ∧
        ([((1:ℝ), [(1:ℝ)]), (2, [2])].getD i (0, []) = (2, [2])) ∧
        (∀ j, j < 2 → ([((1:ℝ), [(1:ℝ)]), (2, [2])].getD j (0, [])).1 ≤ (2:ℝ)) ∧
        (∀ j, i < j → j < 2 → ([((1:ℝ), [(1:ℝ)]), (2, [2])].getD j (0, [])).1 < 2) := by
  have h : bestResult [((1:ℝ), [(1:ℝ)]), (2, [2])] = some (2, [2]) := by
    norm_num [bestResult]
  refine ⟨h, ?_⟩
  simpa using bestResult_is_last_argmax _ _ h

/-- C6 (amended): when the target is met and the scorer returns, the score
divides by the bad-day-correlation quadratic form exactly when
`use_downside_correl` is set and the allocation array has more than one
entry — the gate is the array length, not the number of nonzero weights; and
when that gate is taken with fewer than two bad days the scorer raises
`ValueError` and returns no score at all. -/
theorem score_downsideCorrel_branch (data_matrix : List (List ℝ))
    (allocation_array : List ℝ) (required_return : ℝ) (expense_array : List ℝ)
    (use_downside_correl : Bool)
    (h1 : ¬ meanReturn data_matrix allocation_array expense_array < required_return)
    (h2 : ¬ (use_downside_correl = true ∧ 1 < allocation_array.length ∧
      (badRows data_matrix allocation_array required_return expense_array).length
        < 2)) :
    scoreAllocationE data_matrix allocation_array required_return expense_array
        use_downside_correl =
      .ok ((meanReturn data_matrix allocation_array expense_array - required_return) /
        (downsideRisk data_matrix allocation_array required_return expense_array *
          (if use_downside_correl = true ∧ 1 < allocation_array.length then
            quadForm (badRows data_matrix allocation_array required_return expense_array)
              allocation_array
          else 1)), allocation_array) := by
  unfold scoreAllocationE
  rw [if_neg h1]
  cases use_downside_correl with
  | false => simp
  | true =>
      by_cases h3 : 1 < allocation_array.length
      · have h4 : ¬ (badRows data_matrix allocation_array required_return
            expense_array).length < 2 := fun hh => h2 ⟨rfl, h3, hh⟩
        simp [h3, h4]
      · simp [h3]

/-- Witness for C6's amended theorem: the mean return is an exponential,
hence positive, so the target `0` is met, and with the flag off the
degenerate branch is unreachable. -/
theorem score_downsideCorrel_branch_witness :
    (¬ meanReturn [[2]] [1] [0] < 0) ∧
    (¬ (false = true ∧ 1 < [(1:ℝ)].length ∧ (badRows [[2]] [1] 0 [0]).length < 2)) ∧
      scoreAllocationE [[2]] [1] 0 [0] false =
        .ok ((meanReturn [[2]] [1] [0] - 0) /
          (downsideRisk [[2]] [1] 0 [0] *
            (if false = true ∧ 1 < [(1:ℝ)].length then
              quadForm (badRows [[2]] [1] 0 [0]) [1] else 1)), [1]) := by
  have h1 : ¬ meanReturn [[2]] [1] [0] < (0:ℝ) := by
    simp only [meanReturn, gmean]
    exact not_lt.mpr (Real.exp_pos _).le
  have h2 : ¬ (false = true ∧ 1 < [(1:ℝ)].length ∧
      (badRows [[2]] [1] 0 [0]).length < 2) := by
    simp
  exact ⟨h1, h2, score_downsideCorrel_branch [[2]] [1] 0 [0] false h1 h2⟩

theorem double_sum : ∀ l : List ℕ, (l.map (fun t : ℕ => 2 * t)).sum = 2 * l.sum
  | [] => rfl
  | _ :: t => by simp [double_sum t, Nat.mul_add]

theorem scaleCounts_length (c : List ℕ) (inc : ℝ) :
    (scaleCounts c inc).length = c.length := by
  simp [scaleCounts]

theorem scaleCounts_getD (c : List ℕ) (inc : ℝ) (i : ℕ) :
    (scaleCounts c inc).getD i 0 = (c.getD i 0 : ℝ) * inc := by
  rcases Nat.lt_or_ge i c.length with h | h
  · rw [List.getD_eq_getElem _ _ (by simpa [scaleCounts] using h),
      List.getD_eq_getElem _ _ h]
    simp [scaleCounts]
  · rw [List.getD_eq_default, List.getD_eq_default]
    · simp
    · exact h
    · simpa [scaleCounts] using h

/-- Halving the increment doubles every step count without moving capital. -/
theorem scaleCounts_double (c : List ℕ) (k : ℕ) :
    scaleCounts c (((2:ℝ)⁻¹) ^ k) =
      scaleCounts (c.map (fun t : ℕ => 2 * t)) (((2:ℝ)⁻¹) ^ (k + 1)) := by
  unfold scaleCounts
  rw [List.map_map]
  refine List.map_congr_left ?_
  intro t _
  simp only [Function.comp_apply]
  push_cast
  rw [pow_succ]
  ring

/-- The lattice enumeration is exactly the lists of the given length and sum. -/
theorem mem_latticeLists : ∀ (n m : ℕ) (c : List ℕ),
    c ∈ latticeLists n m ↔ (c.length = n ∧ c.sum = m)
  | 0, 0, c => by
      simp only [latticeLists, List.mem_singleton]
      constructor
      · rintro rfl
        exact ⟨rfl, rfl⟩
      · rintro ⟨hl, -⟩
        exact List.length_eq_zero.1 hl
  | 0, m + 1, c => by
      simp only [latticeLists, List.not_mem_nil, false_iff]
      rintro ⟨hl, hs⟩
      rw [List.length_eq_zero.1 hl] at hs
      simp at hs
  | n + 1, m, c => by
      simp only [latticeLists, List.mem_flatMap, List.mem_range, List.mem_map]
      constructor
      · rintro ⟨t, ht, c', hc', rfl⟩
        rw [mem_latticeLists n (m - t) c'] at hc'
        refine ⟨by simp [hc'.1], ?_⟩
        simp only [List.sum_cons, hc'.2]
        omega
      · rintro ⟨hl, hs⟩
        cases c with
        | nil => simp at hl
        | cons t c' =>
            simp only [List.length_cons, Nat.add_right_cancel_iff] at hl
            simp only [List.sum_cons] at hs
            refine ⟨t, by omega, c', ?_, rfl⟩
            rw [mem_latticeLists n (m - t) c']
            exact ⟨hl, by omega⟩

/-- A single trade moves one step count from the sell leg to the buy leg,
preserving the total count. -/
theorem counts_move_sum {c : List ℕ} {sell buy : ℕ} (hsell : sell < c.length)
    (hbuy : buy < c.length) (hc : 1 ≤ c.getD sell 0) :
    ((c.set sell (c.getD sell 0 - 1)).set buy
      ((c.set sell (c.getD sell 0 - 1)).getD buy 0 + 1)).sum = c.sum := by
  have h1 := sum_set_add c sell (c.getD sell 0 - 1) hsell
  have h2 := sum_set_add (c.set sell (c.getD sell 0 - 1)) buy
    ((c.set sell (c.getD sell 0 - 1)).getD buy 0 + 1) (by simpa using hbuy)
  omega

/-- A candidate generated from a lattice allocation is again a lattice
allocation: the trade is one whole step of the increment. -/
theorem mkCandidate_scale {c : List ℕ} {inc : ℝ} {sell buy : ℕ}
    (hc : 1 ≤ c.getD sell 0) :
    mkCandidate (scaleCounts c inc) inc sell buy =
      scaleCounts ((c.set sell (c.getD sell 0 - 1)).set buy
        ((c.set sell (c.getD sell 0 - 1)).getD buy 0 + 1)) inc := by
  unfold mkCandidate
  have hcast : ((c.getD sell 0 - 1 : ℕ) : ℝ) = (c.getD sell 0 : ℝ) - 1 := by
    push_cast [hc]
    ring
  have hgd : (scaleCounts c inc).getD sell 0 - inc =
      ((c.getD sell 0 - 1 : ℕ) : ℝ) * inc := by
    rw [scaleCounts_getD, hcast]
    ring
  have ha1 : (scaleCounts c inc).set sell (((c.getD sell 0 - 1 : ℕ) : ℝ) * inc) =
      scaleCounts (c.set sell (c.getD sell 0 - 1)) inc := by
    unfold scaleCounts
    rw [List.map_set]
  rw [hgd, ha1]
  have hgd2 : (scaleCounts (c.set sell (c.getD sell 0 - 1)) inc).getD buy 0 + inc =
      (((c.set sell (c.getD sell 0 - 1)).getD buy 0 + 1 : ℕ) : ℝ) * inc := by
    rw [scaleCounts_getD]
    push_cast
    ring
  show (scaleCounts (c.set sell (c.getD sell 0 - 1)) inc).set buy
      ((scaleCounts (c.set sell (c.getD sell 0 - 1)) inc).getD buy 0 + inc) = _
  rw [hgd2]
  unfold scaleCounts
  simp [List.map_set]

/-- The scorer `_scoreAllocation` always hands back the allocation it was given. -/
theorem scoreAllocation_snd (data_matrix : List (List ℝ)) (allocation_array : List ℝ)
    (required_return : ℝ) (expense_array : List ℝ) (use_downside_correl : Bool) :
    (scoreAllocation data_matrix allocation_array required_return expense_array
      use_downside_correl).2 = allocation_array := by
  simp only [scoreAllocation]
  split <;> rfl

theorem bestResult_mem_aux :
    ∀ (rs : List (ℝ × List ℝ)) (acc : Option (ℝ × List ℝ)) (br : ℝ × List ℝ),
      rs.foldl (fun acc y =>
        match acc with
        | none => some y
        | some x => if x.1 > y.1 then some x else some y) acc = some br →
      acc = some br ∨ br ∈ rs
  | [], acc, br => fun h => Or.inl h
  | y :: t, acc, br => by
      intro h
      simp only [List.foldl_cons] at h
      rcases bestResult_mem_aux t _ br h with h' | h'
      · cases acc with
        | none =>
            simp only at h'
            cases h'
            exact Or.inr (List.mem_cons_self _ _)
        | some x =>
            simp only at h'
            split at h'
            · exact Or.inl h'
            · cases h'
              exact Or.inr (List.mem_cons_self _ _)
      · exact Or.inr (List.mem_cons_of_mem _ h')

/-- The reduce's result is one of the round's results. -/
theorem bestResult_mem {rs : List (ℝ × List ℝ)} {br : ℝ × List ℝ}
    (h : bestResult rs = some br) : br ∈ rs := by
  rcases bestResult_mem_aux rs none br h with h' | h'
  · cases h'
  · exact h'

/-- Every controller round either adopts a strictly better round result at
the same increment or keeps everything and halves the increment. -/
theorem controllerStep_cases (data_matrix : List (List ℝ)) (required_return : ℝ)
    (expense_array : List ℝ) (use_downside_correl : Bool) (s : SearchState) :
    (∃ br, bestResult (roundResults data_matrix required_return expense_array
        use_downside_correl s) = some br ∧ br.1 > s.bestScore ∧
      controllerStep data_matrix required_return expense_array use_downside_correl s =
        ⟨br.2, br.1, s.inc, s.halvings⟩) ∨
    controllerStep data_matrix required_return expense_array use_downside_correl s =
      ⟨s.best, s.bestScore, s.inc / 2, s.halvings + 1⟩ := by
  rcases h : bestResult (roundResults data_matrix required_return expense_array
      use_downside_correl s) with _ | br
  · right
    simp [controllerStep, h]
  · by_cases hgt : br.1 > s.bestScore
    · left
      exact ⟨br, rfl, hgt, by simp [controllerStep, h, hgt]⟩
    · right
      simp [controllerStep, h, hgt]

/-- Where the error-aware scorer returns, it returns exactly the value-level
score. -/
theorem scoreAllocationE_ok {data_matrix : List (List ℝ)} {allocation_array : List ℝ}
    {required_return : ℝ} {expense_array : List ℝ} {use_downside_correl : Bool}
    {r : ℝ × List ℝ}
    (h : scoreAllocationE data_matrix allocation_array required_return expense_array
      use_downside_correl = .ok r) :
    r = scoreAllocation data_matrix allocation_array required_return expense_array
      use_downside_correl := by
  by_cases h1 : meanReturn data_matrix allocation_array expense_array < required_return
  · unfold scoreAllocationE at h
    rw [if_pos h1] at h
    cases h
    simp [scoreAllocation, h1]
  · by_cases h2 : use_downside_correl = false
    · unfold scoreAllocationE at h
      rw [if_neg h1, if_pos h2] at h
      cases h
      simp [scoreAllocation, downsideCorrel, h1, h2]
    · by_cases h3 : 1 < allocation_array.length
      · by_cases h4 : (badRows data_matrix allocation_array required_return
            expense_array).length < 2
        · unfold scoreAllocationE at h
          rw [if_neg h1, if_neg h2, if_pos h3, if_pos h4] at h
          cases h
        · unfold scoreAllocationE at h
          rw [if_neg h1, if_neg h2, if_pos h3, if_neg h4] at h
          cases h
          simp [scoreAllocation, downsideCorrel, h1, h2, h3]
      · unfold scoreAllocationE at h
        rw [if_neg h1, if_neg h2, if_neg h3] at h
        cases h
        simp [scoreAllocation, downsideCorrel, h1, h2, h3]

/-- The error-aware scorer raises exactly on the degenerate-correlation
inputs: target met, flag set, more than one instrument, fewer than two
bad-day rows. -/
theorem scoreAllocationE_error_iff (data_matrix : List (List ℝ))
    (allocation_array : List ℝ) (required_return : ℝ) (expense_array : List ℝ)
    (use_downside_correl : Bool) :
    scoreAllocationE data_matrix allocation_array required_return expense_array
        use_downside_correl = .error .degenerateCorrel ↔
      (¬ meanReturn data_matrix allocation_array expense_array < required_return ∧
        use_downside_correl = true ∧ 1 < allocation_array.length ∧
        (badRows data_matrix allocation_array required_return expense_array).length
          < 2) := by
  cases use_downside_correl with
  | false =>
      by_cases h1 : meanReturn data_matrix allocation_array expense_array
          < required_return <;>
        simp [scoreAllocationE, h1]
  | true =>
      by_cases h1 : meanReturn data_matrix allocation_array expense_array
          < required_return
      · simp [scoreAllocationE, h1]
      · by_cases h3 : 1 < allocation_array.length
        · by_cases h4 : (badRows data_matrix allocation_array required_return
              expense_array).length < 2 <;>
            simp [scoreAllocationE, h1, h3, h4]
        · simp [scoreAllocationE, h1, h3]

/-- An exception-free round batch is exactly the value-level batch. -/
theorem mapScoresE_ok (data_matrix : List (List ℝ)) (required_return : ℝ)
    (expense_array : List ℝ) (use_downside_correl : Bool) :
    ∀ (l : List ((ℕ × ℕ) × List ℝ)) (rs : List (ℝ × List ℝ)),
      mapScoresE data_matrix required_return expense_array use_downside_correl l
        = .ok rs →
      rs = l.map (fun pc => scoreAllocation data_matrix pc.2 required_return
        expense_array use_downside_correl)
  | [], rs => by
      intro h
      cases h
      rfl
  | pc :: rest, rs => by
      intro h
      unfold mapScoresE at h
      split at h
      · cases h
      · rename_i r heq1
        split at h
        · cases h
        · rename_i rs' heq2
          cases h
          rw [List.map_cons, ← scoreAllocationE_ok heq1,
            ← mapScoresE_ok data_matrix required_return expense_array
              use_downside_correl rest rs' heq2]

/-- Each error-aware round either raises or agrees with the value-level
round. -/
theorem controllerStepE_agree (data_matrix : List (List ℝ)) (required_return : ℝ)
    (expense_array : List ℝ) (use_downside_correl : Bool) (s : SearchState) :
    (∃ err, controllerStepE data_matrix required_return expense_array
        use_downside_correl s = .error err) ∨
      controllerStepE data_matrix required_return expense_array use_downside_correl s
        = .ok (controllerStep data_matrix required_return expense_array
          use_downside_correl s) := by
  unfold controllerStepE
  cases hm : mapScoresE data_matrix required_return expense_array use_downside_correl
      (neighborhood s.best s.inc) with
  | error err => exact Or.inl ⟨err, rfl⟩
  | ok results =>
      right
      have hr : results = roundResults data_matrix required_return expense_array
          use_downside_correl s :=
        mapScoresE_ok data_matrix required_return expense_array use_downside_correl
          _ _ hm
      rw [hr]
      unfold controllerStep
      rcases hb : bestResult (roundResults data_matrix required_return expense_array
          use_downside_correl s) with _ | br
      · simp [hb]
      · simp only [hb]
        split <;> rfl

/-- The error-aware search simulates the value-level search: wherever the
latter completes, the former either raises along the way or completes with
the same outcome. -/
theorem runSearchE_simulates (data_matrix : List (List ℝ)) (required_return : ℝ)
    (expense_array : List ℝ) (use_downside_correl : Bool) :
    ∀ (fuel : ℕ) (s : SearchState) (out : ℝ × List ℝ × ℕ),
      runSearch data_matrix required_return expense_array use_downside_correl fuel s
        = some out →
      (∃ err, runSearchE data_matrix required_return expense_array use_downside_correl
          fuel s = .error err) ∨
        runSearchE data_matrix required_return expense_array use_downside_correl
          fuel s = .ok (some out)
  | 0, s, out => by
      intro h
      simp [runSearch] at h
  | fuel + 1, s, out => by
      intro h
      simp only [runSearch] at h
      simp only [runSearchE]
      by_cases hg : s.inc ≥ 1 / 128
      · rw [if_pos hg] at h
        rw [if_pos hg]
        rcases controllerStepE_agree data_matrix required_return expense_array
            use_downside_correl s with ⟨err, hE⟩ | hE
        · rw [hE]
          exact Or.inl ⟨err, rfl⟩
        · rw [hE]
          exact runSearchE_simulates data_matrix required_return expense_array
            use_downside_correl fuel _ out h
      · rw [if_neg hg] at h
        rw [if_neg hg]
        cases h
        exact Or.inr rfl

/-- Once the increment has been halved below the resolution floor the loop
exits immediately, reporting the eight halvings it made. -/
theorem runSearch_done (data_matrix : List (List ℝ)) (required_return : ℝ)
    (expense_array : List ℝ) (use_downside_correl : Bool) (s : SearchState)
    (hinc : s.inc = (2:ℝ)⁻¹ ^ 8) (hh : s.halvings = 8) :
    runSearch data_matrix required_return expense_array use_downside_correl 1 s =
      some (s.bestScore, s.best, 8) := by
  have hlt : ¬ s.inc ≥ 1 / 128 := by
    rw [hinc]
    norm_num
  simp only [runSearch]
  rw [if_neg hlt, hh]

/-- At a level whose increment still clears the floor, the search reaches a
terminating state: improvement rounds strictly shrink the finite set of
lattice scores above the current score, and a no-improvement round hands
over to the next level. -/
theorem level_step (data_matrix : List (List ℝ)) (required_return : ℝ)
    (expense_array : List ℝ) (use_downside_correl : Bool) (n k : ℕ) (hk7 : k ≤ 7)
    (Hnext : ∀ (s : SearchState) (c : List ℕ), s.inc = (2:ℝ)⁻¹ ^ (k + 1) →
      s.halvings = k + 1 → c.length = n → c.sum = 2 ^ (k + 1) →
      s.best = scaleCounts c ((2:ℝ)⁻¹ ^ (k + 1)) →
      ∃ fuel sc al, runSearch data_matrix required_return expense_array
        use_downside_correl fuel s = some (sc, al, 8)) :
    ∀ (s : SearchState) (c : List ℕ), s.inc = (2:ℝ)⁻¹ ^ k → s.halvings = k →
      c.length = n → c.sum = 2 ^ k → s.best = scaleCounts c ((2:ℝ)⁻¹ ^ k) →
      ∃ fuel sc al, runSearch data_matrix required_return expense_array
        use_downside_correl fuel s = some (sc, al, 8) := by
  classical
  have hguard : ∀ s : SearchState, s.inc = (2:ℝ)⁻¹ ^ k → s.inc ≥ 1 / 128 := by
    intro s hinc
    rw [hinc]
    calc (1:ℝ) / 128 = (2:ℝ)⁻¹ ^ 7 := by norm_num
    _ ≤ (2:ℝ)⁻¹ ^ k := pow_le_pow_of_le_one (by norm_num) (by norm_num) hk7
  suffices H : ∀ (N : ℕ) (s : SearchState) (c : List ℕ), s.inc = (2:ℝ)⁻¹ ^ k →
      s.halvings = k → c.length = n → c.sum = 2 ^ k →
      s.best = scaleCounts c ((2:ℝ)⁻¹ ^ k) →
      (((latticeScores data_matrix required_return expense_array use_downside_correl
          n (2 ^ k) ((2:ℝ)⁻¹ ^ k)).toFinset).filter (fun x => s.bestScore < x)).card = N →
      ∃ fuel sc al, runSearch data_matrix required_return expense_array
        use_downside_correl fuel s = some (sc, al, 8) by
    intro s c h1 h2 h3 h4 h5
    exact H _ s c h1 h2 h3 h4 h5 rfl
  intro N
  induction N using Nat.strong_induction_on with
  | _ N IHN =>
    intro s c hinc hh hlen hsum hbest hN
    rcases controllerStep_cases data_matrix required_return expense_array
        use_downside_correl s with ⟨br, hbr, hgt, hstepEq⟩ | hstepEq
    · -- an improvement round: the adopted allocation is again a lattice point
      have hmem : br ∈ roundResults data_matrix required_return expense_array
          use_downside_correl s := bestResult_mem hbr
      rcases List.mem_map.1 hmem with ⟨pc, hpc, hbrEq⟩
      obtain ⟨⟨sell, buy⟩, cand⟩ := pc
      rcases mem_neighborhood.1 hpc with ⟨hsell, hbuy, hne, hguard2, hcand⟩
      rw [hbest, scaleCounts_length] at hsell hbuy
      have hones : 1 ≤ c.getD sell 0 := by
        rw [hbest, hinc, scaleCounts_getD] at hguard2
        have hp : (0:ℝ) < (2:ℝ)⁻¹ ^ k := by positivity
        have h1 : (1:ℝ) ≤ (c.getD sell 0 : ℝ) := by
          nlinarith [not_lt.1 hguard2]
        exact_mod_cast h1
      have hcand' : cand = scaleCounts ((c.set sell (c.getD sell 0 - 1)).set buy
          ((c.set sell (c.getD sell 0 - 1)).getD buy 0 + 1)) ((2:ℝ)⁻¹ ^ k) := by
        rw [hcand, hbest, hinc]
        exact mkCandidate_scale hones
      have hlen' : ((c.set sell (c.getD sell 0 - 1)).set buy
          ((c.set sell (c.getD sell 0 - 1)).getD buy 0 + 1)).length = n := by
        simp [hlen]
      have hsum' : ((c.set sell (c.getD sell 0 - 1)).set buy
          ((c.set sell (c.getD sell 0 - 1)).getD buy 0 + 1)).sum = 2 ^ k :=
        (counts_move_sum hsell hbuy hones).trans hsum
      have hbr2 : br.2 = scaleCounts ((c.set sell (c.getD sell 0 - 1)).set buy
          ((c.set sell (c.getD sell 0 - 1)).getD buy 0 + 1)) ((2:ℝ)⁻¹ ^ k) := by
        rw [← hbrEq, scoreAllocation_snd]
        exact hcand'
      have hbr1 : br.1 ∈ latticeScores data_matrix required_return expense_array
          use_downside_correl n (2 ^ k) ((2:ℝ)⁻¹ ^ k) := by
        unfold latticeScores
        refine List.mem_map.2 ⟨_, (mem_latticeLists _ _ _).2 ⟨hlen', hsum'⟩, ?_⟩
        rw [← hcand', hbrEq]
      have hM : (((latticeScores data_matrix required_return expense_array
          use_downside_correl n (2 ^ k) ((2:ℝ)⁻¹ ^ k)).toFinset).filter
            (fun x => br.1 < x)).card < N := by
        rw [← hN]
        refine Finset.card_lt_card ?_
        have hsub : ((latticeScores data_matrix required_return expense_array
            use_downside_correl n (2 ^ k) ((2:ℝ)⁻¹ ^ k)).toFinset).filter
              (fun x => br.1 < x) ⊆
            ((latticeScores data_matrix required_return expense_array
            use_downside_correl n (2 ^ k) ((2:ℝ)⁻¹ ^ k)).toFinset).filter
              (fun x => s.bestScore < x) := by
          intro x hx
          rcases Finset.mem_filter.1 hx with ⟨hx1, hx2⟩
          exact Finset.mem_filter.2 ⟨hx1, lt_trans hgt hx2⟩
        rw [Finset.ssubset_iff_of_subset hsub]
        refine ⟨br.1, Finset.mem_filter.2 ⟨List.mem_toFinset.2 hbr1, hgt⟩, ?_⟩
        intro hmem'
        exact absurd (Finset.mem_filter.1 hmem').2 (lt_irrefl _)
      rcases IHN _ hM ⟨br.2, br.1, s.inc, s.halvings⟩ _ (by simpa using hinc)
          (by simpa using hh) hlen' hsum' (by simpa using hbr2) rfl with
        ⟨fuel, sc, al, hrun⟩
      refine ⟨fuel + 1, sc, al, ?_⟩
      simp only [runSearch]
      rw [if_pos (hguard s hinc), hstepEq]
      exact hrun
    · -- a no-improvement round: halve and hand over to the next level
      have hnext := Hnext ⟨s.best, s.bestScore, s.inc / 2, s.halvings + 1⟩
        (c.map (fun t : ℕ => 2 * t))
        (by show s.inc / 2 = _; rw [hinc, pow_succ, div_eq_mul_inv])
        (by show s.halvings + 1 = _; rw [hh])
        (by simp [hlen])
        (by rw [double_sum, hsum, pow_succ]; ring)
        (by show s.best = _; rw [hbest]; exact scaleCounts_double c k)
      rcases hnext with ⟨fuel, sc, al, hrun⟩
      refine ⟨fuel + 1, sc, al, ?_⟩
      simp only [runSearch]
      rw [if_pos (hguard s hinc), hstepEq]
      exact hrun

/-- Peeling levels: from any lattice state at most `8 − k` halvings remain,
and the search reaches the exit with exactly eight halvings recorded. -/
theorem levels_terminate (data_matrix : List (List ℝ)) (required_return : ℝ)
    (expense_array : List ℝ) (use_downside_correl : Bool) (n : ℕ) :
    ∀ (j k : ℕ), 8 ≤ k + j → k ≤ 8 →
    ∀ (s : SearchState) (c : List ℕ), s.inc = (2:ℝ)⁻¹ ^ k → s.halvings = k →
      c.length = n → c.sum = 2 ^ k → s.best = scaleCounts c ((2:ℝ)⁻¹ ^ k) →
      ∃ fuel sc al, runSearch data_matrix required_return expense_array
        use_downside_correl fuel s = some (sc, al, 8)
  | 0, k, h8, hk8 => by
      intro s c hinc hh _ _ _
      have hk : k = 8 := by omega
      subst hk
      exact ⟨1, s.bestScore, s.best,
        runSearch_done data_matrix required_return expense_array use_downside_correl
          s hinc hh⟩
  | j + 1, k, h8, hk8 => by
      by_cases hk : 8 ≤ k
      · intro s c hinc hh _ _ _
        have hkk : k = 8 := by omega
        subst hkk
        exact ⟨1, s.bestScore, s.best,
          runSearch_done data_matrix required_return expense_array use_downside_correl
            s hinc hh⟩
      · have hk7 : k ≤ 7 := by omega
        exact level_step data_matrix required_return expense_array use_downside_correl
          n k hk7
          (levels_terminate data_matrix required_return expense_array
            use_downside_correl n j (k + 1) (by omega) (by omega))

/-- The seed state satisfies the lattice invariant at level `0`. -/
theorem initState_invariant (data_matrix : List (List ℝ)) (required_return : ℝ)
    (expense_array : List ℝ) (use_downside_correl : Bool) (n : ℕ) (hn : 1 ≤ n) :
    (initState data_matrix required_return expense_array use_downside_correl n).inc =
        (2:ℝ)⁻¹ ^ 0 ∧
    (initState data_matrix required_return expense_array use_downside_correl n).halvings
        = 0 ∧
    ((List.replicate n 0).set 0 1).length = n ∧
    ((List.replicate n 0).set 0 1).sum = 2 ^ 0 ∧
    (initState data_matrix required_return expense_array use_downside_correl n).best =
      scaleCounts ((List.replicate n 0).set 0 1) ((2:ℝ)⁻¹ ^ 0) := by
  refine ⟨by norm_num [initState], rfl, by simp, ?_, ?_⟩
  · have h := sum_set_add (List.replicate n (0:ℕ)) 0 1 (by simpa using hn)
    simp at h
    simpa using h
  · show initAlloc n = _
    unfold initAlloc scaleCounts
    rw [List.map_set, List.map_replicate]
    norm_num

/-- Running the whole search on a one-instrument universe: every round is a
no-improvement round, the increment is halved eight times, and the loop exits
with the seed's score and allocation. -/
theorem runSearch_singleton_eval (data_matrix : List (List ℝ)) (required_return : ℝ)
    (expense_array : List ℝ) (use_downside_correl : Bool) (sc x : ℝ) :
    runSearch data_matrix required_return expense_array use_downside_correl 9
      ⟨[x], sc, 1, 0⟩ = some (sc, [x], 8) := by
  have hstep : ∀ (sc' inc' : ℝ) (h' : ℕ),
      controllerStep data_matrix required_return expense_array use_downside_correl
        ⟨[x], sc', inc', h'⟩ = ⟨[x], sc', inc' / 2, h' + 1⟩ :=
    fun sc' inc' h' =>
      controllerStep_singleton data_matrix required_return expense_array
        use_downside_correl _ x rfl
  norm_num [runSearch, hstep]

/-- The value-level search from the seed state terminates with exactly eight
halvings recorded. -/
theorem runSearch_init_eight (data_matrix : List (List ℝ))
    (required_return : ℝ) (expense_array : List ℝ) (use_downside_correl : Bool)
    (n : ℕ) (hn : 1 ≤ n) :
    ∃ fuel sc al, runSearch data_matrix required_return expense_array
      use_downside_correl fuel
        (initState data_matrix required_return expense_array use_downside_correl n) =
      some (sc, al, 8) := by
  obtain ⟨h1, h2, h3, h4, h5⟩ := initState_invariant data_matrix required_return
    expense_array use_downside_correl n hn
  exact levels_terminate data_matrix required_return expense_array use_downside_correl
    n 8 0 (by omega) (by omega) _ _ h1 h2 h3 h4 h5

/-- The error-aware search from the seed allocation either raises along the
way or completes with exactly eight halvings recorded. -/
theorem findOptimalAllocationE_completes (data_matrix : List (List ℝ))
    (required_return : ℝ) (expense_array : List ℝ) (use_downside_correl : Bool)
    (n : ℕ) (hn : 1 ≤ n) :
    ∃ fuel, (∃ err, findOptimalAllocationE data_matrix required_return expense_array
        use_downside_correl n fuel = .error err) ∨
      ∃ sc al, findOptimalAllocationE data_matrix required_return expense_array
        use_downside_correl n fuel = .ok (some (sc, al, 8)) := by
  cases h0 : scoreAllocationE data_matrix (initAlloc n) required_return expense_array
      use_downside_correl with
  | error err =>
      refine ⟨1, Or.inl ⟨err, ?_⟩⟩
      unfold findOptimalAllocationE
      rw [h0]
  | ok r0 =>
      have hr0 : r0 = scoreAllocation data_matrix (initAlloc n) required_return
          expense_array use_downside_correl := scoreAllocationE_ok h0
      have hstate : (⟨initAlloc n, r0.1, 1, 0⟩ : SearchState) =
          initState data_matrix required_return expense_array use_downside_correl n := by
        rw [hr0]
        rfl
      obtain ⟨fuel, sc, al, hrun⟩ := runSearch_init_eight data_matrix required_return
        expense_array use_downside_correl n hn
      rcases runSearchE_simulates data_matrix required_return expense_array
          use_downside_correl fuel _ _ hrun with ⟨err, hE⟩ | hE
      · refine ⟨fuel, Or.inl ⟨err, ?_⟩⟩
        unfold findOptimalAllocationE
        rw [h0]
        change runSearchE data_matrix required_return expense_array use_downside_correl
          fuel ⟨initAlloc n, r0.1, 1, 0⟩ = _
        rw [hstate]
        exact hE
      · refine ⟨fuel, Or.inr ⟨sc, al, ?_⟩⟩
        unfold findOptimalAllocationE
        rw [h0]
        change runSearchE data_matrix required_return expense_array use_downside_correl
          fuel ⟨initAlloc n, r0.1, 1, 0⟩ = _
        rw [hstate]
        exact hE

/-- C5 (amended): for every input with at least one instrument the search
either raises the degenerate-correlation `ValueError` or terminates
normally — halving the step size on every no-improvement round, stopping as
soon as the step size falls below `1/128`, and recording exactly
`8 = 1 + ceil(log2 128)` no-improvement decisions. -/
theorem search_eight_halvings_or_raise (data_matrix : List (List ℝ))
    (required_return : ℝ) (expense_array : List ℝ) (use_downside_correl : Bool)
    (n : ℕ) (hn : 1 ≤ n) :
    ∃ fuel, (∃ err, findOptimalAllocationE data_matrix required_return expense_array
        use_downside_correl n fuel = .error err) ∨
      ∃ sc al, findOptimalAllocationE data_matrix required_return expense_array
        use_downside_correl n fuel = .ok (some (sc, al, 8)) :=
  findOptimalAllocationE_completes data_matrix required_return expense_array
    use_downside_correl n hn

/-- Witness for C5's amended theorem at the one-instrument input `[[1]]`. -/
theorem search_eight_halvings_or_raise_witness :
    1 ≤ 1 ∧ ∃ fuel,
      (∃ err, findOptimalAllocationE [[(1:ℝ)]] 0 [0] false 1 fuel = .error err) ∨
      ∃ sc al, findOptimalAllocationE [[(1:ℝ)]] 0 [0] false 1 fuel =
        .ok (some (sc, al, 8)) :=
  ⟨le_refl 1, search_eight_halvings_or_raise [[(1:ℝ)]] 0 [0] false 1 (le_refl 1)⟩

/-- Counterexample for C5 as stated: with the minimum resolution `1/128`,
`ceil(log2 (1/minStepSize)) = 7`, but a complete run on a one-instrument
universe records `8` no-improvement decisions; and on `[[2, 2]]` with
required return `1` the search does not terminate normally at all — the
initial scoring raises the degenerate-correlation `ValueError` after zero
halvings. -/
theorem search_halvings_counterexample :
    (runSearch [[(1:ℝ)]] 0 [0] false 9 (initState [[(1:ℝ)]] 0 [0] false 1)).map
        (fun r => r.2.2) = some 8 ∧ ¬ ((8:ℕ) ≤ 7) ∧
    findOptimalAllocationE [[(2:ℝ), 2]] 1 [0, 0] true 2 9 =
      .error .degenerateCorrel := by
  refine ⟨?_, by omega, ?_⟩
  · have hi : initState [[(1:ℝ)]] 0 [0] false 1 =
        ⟨[1], (scoreAllocation [[(1:ℝ)]] (initAlloc 1) 0 [0] false).1, 1, 0⟩ := by
      have hia : initAlloc 1 = [(1:ℝ)] := rfl
      simp only [initState, hia]
    rw [hi, runSearch_singleton_eval]
    rfl
  · have hia : initAlloc 2 = [(1:ℝ), 0] := rfl
    unfold findOptimalAllocationE
    rw [hia, scoreE_error_on_no_bad_days.2]

/-- C8 (amended): the search either returns a final `(score, allocation)` or
raises; the only exception in the optimizer is the degenerate-correlation
`ValueError`, raised exactly when the target is met, the flag is set, more
than one instrument exists, and fewer than two days fall below the target. -/
theorem search_returns_or_raises :
    (∀ (data_matrix : List (List ℝ)) (allocation_array : List ℝ) (required_return : ℝ)
        (expense_array : List ℝ) (use_downside_correl : Bool),
      scoreAllocationE data_matrix allocation_array required_return expense_array
          use_downside_correl = .error .degenerateCorrel ↔
        (¬ meanReturn data_matrix allocation_array expense_array < required_return ∧
          use_downside_correl = true ∧ 1 < allocation_array.length ∧
          (badRows data_matrix allocation_array required_return expense_array).length
            < 2)) ∧
    (∀ (data_matrix : List (List ℝ)) (required_return : ℝ) (expense_array : List ℝ)
        (use_downside_correl : Bool) (n : ℕ), 1 ≤ n →
      ∃ fuel, (∃ err, findOptimalAllocationE data_matrix required_return expense_array
          use_downside_correl n fuel = .error err) ∨
        ∃ out, findOptimalAllocationE data_matrix required_return expense_array
          use_downside_correl n fuel = .ok (some out)) := by
  constructor
  · exact scoreAllocationE_error_iff
  · intro data_matrix required_return expense_array use_downside_correl n hn
    rcases findOptimalAllocationE_completes data_matrix required_return expense_array
        use_downside_correl n hn with ⟨fuel, h | ⟨sc, al, h⟩⟩
    · exact ⟨fuel, Or.inl h⟩
    · exact ⟨fuel, Or.inr ⟨(sc, al, 8), h⟩⟩

/-- Witness for C8's amended theorem: the exception characterization at the
concrete crashing input, and completion at the one-instrument input. -/
theorem search_returns_or_raises_witness :
    (scoreAllocationE [[(2:ℝ), 2]] [1, 0] 1 [0, 0] true = .error .degenerateCorrel ↔
      (¬ meanReturn [[(2:ℝ), 2]] [1, 0] [0, 0] < 1 ∧ true = true ∧
        1 < [(1:ℝ), 0].length ∧ (badRows [[(2:ℝ), 2]] [1, 0] 1 [0, 0]).length < 2)) ∧
    (1 ≤ 1 ∧ ∃ fuel,
      (∃ err, findOptimalAllocationE [[(2:ℝ)]] 0 [0] true 1 fuel = .error err) ∨
      ∃ out, findOptimalAllocationE [[(2:ℝ)]] 0 [0] true 1 fuel = .ok (some out)) :=
  ⟨search_returns_or_raises.1 [[(2:ℝ), 2]] [1, 0] 1 [0, 0] true,
   le_refl 1, search_returns_or_raises.2 [[(2:ℝ)]] 0 [0] true 1 (le_refl 1)⟩

/-- Counterexample for C8 as stated: on an input whose downside risk is zero
while the mean return meets the target (every day's return exactly equals the
required return), the search does not abort with any error — it runs to
completion and returns a result (`numpy` produces a `nan` score from the
zero division; the real-valued model yields `0`). -/
theorem zero_risk_no_abort_counterexample :
    downsideRisk [[(1:ℝ)]] [1] 1 [0] = 0 ∧
    ¬ meanReturn [[(1:ℝ)]] [1] [0] < 1 ∧
    (runSearch [[(1:ℝ)]] 1 [0] true 9 (initState [[(1:ℝ)]] 1 [0] true 1)).isSome
      = true := by
  have hexp : expenseFactor [(1:ℝ)] [0] = 1 := by
    norm_num [expenseFactor, dot, Real.one_rpow]
  have hadj : adjustedReturns [[(1:ℝ)]] [1] [0] = [1] := by
    norm_num [adjustedReturns, dailyReturns, dot, hexp]
  refine ⟨?_, ?_, ?_⟩
  · unfold downsideRisk
    rw [hadj]
    norm_num
  · unfold meanReturn
    rw [hadj]
    unfold gmean
    norm_num
  · have hi : initState [[(1:ℝ)]] 1 [0] true 1 =
        ⟨[1], (scoreAllocation [[(1:ℝ)]] (initAlloc 1) 1 [0] true).1, 1, 0⟩ := by
      have hia : initAlloc 1 = [(1:ℝ)] := rfl
      simp only [initState, hia]
    rw [hi, runSearch_singleton_eval]
    rfl

/-- Counterexample for C6 as stated: with `use_downside_correl` set, the
allocation `[1, 0]` carries exactly one nonzero weight, so the claim says
`downsideCorrel = 1`; but the code gates on the array length `2 > 1` and
computes the quadratic form of the bad-day correlation matrix, which is
degenerate here (the selling instrument is constant on the bad days), so the
code's score differs from the score the claim prescribes (`nan` in `numpy`,
`0` in the real-valued model). -/
theorem downsideCorrel_gate_counterexample :
    nonzeroWeights [(1:ℝ), 0] = 1 ∧
    ¬ meanReturn [[(1:ℝ)/2, 1], [1/2, 1], [8, 1]] [1, 0] [0, 0] < 1 ∧
    (scoreAllocation [[(1:ℝ)/2, 1], [1/2, 1], [8, 1]] [1, 0] 1 [0, 0] true).1 ≠
      (meanReturn [[(1:ℝ)/2, 1], [1/2, 1], [8, 1]] [1, 0] [0, 0] - 1) /
        (downsideRisk [[(1:ℝ)/2, 1], [1/2, 1], [8, 1]] [1, 0] 1 [0, 0] *
          specDownsideCorrel [[(1:ℝ)/2, 1], [1/2, 1], [8, 1]] [1, 0] 1 [0, 0] true) := by
  have hexp : expenseFactor [(1:ℝ), 0] [0, 0] = 1 := by
    norm_num [expenseFactor, dot, Real.one_rpow]
  have hadj : adjustedReturns [[(1:ℝ)/2, 1], [1/2, 1], [8, 1]] [1, 0] [0, 0]
      = [1/2, 1/2, 8] := by
    norm_num [adjustedReturns, dailyReturns, dot, hexp]
  have hmean : meanReturn [[(1:ℝ)/2, 1], [1/2, 1], [8, 1]] [1, 0] [0, 0]
      = Real.exp (Real.log 2 / 3) := by
    unfold meanReturn
    rw [hadj]
    unfold gmean
    norm_num
    rw [show (8:ℝ) = 2 ^ (3:ℕ) by norm_num, Real.log_pow,
      show (1/2:ℝ) = 2⁻¹ by norm_num, Real.log_inv]
    ring_nf
  have hge : ¬ meanReturn [[(1:ℝ)/2, 1], [1/2, 1], [8, 1]] [1, 0] [0, 0] < 1 := by
    rw [hmean]
    refine not_lt.mpr ?_
    calc (1:ℝ) = Real.exp 0 := Real.exp_zero.symm
    _ ≤ Real.exp (Real.log 2 / 3) := Real.exp_le_exp.mpr
        (div_nonneg (Real.log_nonneg (by norm_num)) (by norm_num))
  have hbad : badRows [[(1:ℝ)/2, 1], [1/2, 1], [8, 1]] [1, 0] 1 [0, 0]
      = [[1/2, 1], [1/2, 1]] := by
    unfold badRows
    rw [hadj]
    norm_num [List.filter]
  have hcov : covar [[(1:ℝ)/2, 1], [1/2, 1]] 0 0 = 0 := by
    norm_num [covar, colMean]
  have hquad : quadForm [[(1:ℝ)/2, 1], [1/2, 1]] [1, 0] = 0 := by
    norm_num [quadForm, List.range_succ, correl, hcov]
  have hdc : downsideCorrel [[(1:ℝ)/2, 1], [1/2, 1], [8, 1]] [1, 0] 1 [0, 0] true = 0 := by
    unfold downsideCorrel
    rw [hbad]
    norm_num [hquad]
  have hscore : (scoreAllocation [[(1:ℝ)/2, 1], [1/2, 1], [8, 1]] [1, 0] 1 [0, 0] true).1
      = 0 := by
    simp only [scoreAllocation]
    split
    · rename_i hlt
      exact absurd hlt hge
    · rw [hdc]
      simp
  have hrisk : downsideRisk [[(1:ℝ)/2, 1], [1/2, 1], [8, 1]] [1, 0] 1 [0, 0]
      = Real.sqrt (1/6) := by
    unfold downsideRisk
    rw [hadj]
    norm_num [min_def]
  have hnz : nonzeroWeights [(1:ℝ), 0] = 1 := by
    norm_num [nonzeroWeights, List.filter]
  have hspec : specDownsideCorrel [[(1:ℝ)/2, 1], [1/2, 1], [8, 1]] [1, 0] 1 [0, 0] true
      = 1 := by
    unfold specDownsideCorrel
    rw [hnz]
    norm_num
  have hrhs : 0 < (meanReturn [[(1:ℝ)/2, 1], [1/2, 1], [8, 1]] [1, 0] [0, 0] - 1) /
      (downsideRisk [[(1:ℝ)/2, 1], [1/2, 1], [8, 1]] [1, 0] 1 [0, 0] *
        specDownsideCorrel [[(1:ℝ)/2, 1], [1/2, 1], [8, 1]] [1, 0] 1 [0, 0] true) := by
    rw [hmean, hrisk, hspec, mul_one]
    refine div_pos ?_ (Real.sqrt_pos.mpr (by norm_num))
    have h1 : Real.exp 0 < Real.exp (Real.log 2 / 3) :=
      Real.exp_lt_exp.mpr (div_pos (Real.log_pos (by norm_num)) (by norm_num))
    simp only [Real.exp_zero] at h1
    linarith
  refine ⟨hnz, hge, ?_⟩
  rw [hscore]
  exact ne_of_lt hrhs

end Finance

namespace Gatherer

/-- A successful return of the retry loop always contains the required key:
the missing-key branch loops instead of returning. -/
theorem callApiGo_ok_containsKey (responses : ℕ → Response) (key : String) :
    ∀ (fuel attempts : ℕ) (agg d : Dict),
      callApiGo responses key fuel attempts agg = .ok d → containsKey d key = true
  | 0, attempts, agg, d => by
      intro h
      simp [callApiGo] at h
  | fuel + 1, attempts, agg, d => by
      intro h
      unfold callApiGo at h
      split at h
      · simp at h
      · split at h
        · exact callApiGo_ok_containsKey responses key fuel (attempts + 1) agg d h
        · split at h
          · simp at h
          · split at h
            · simp at h
            · rename_i result _
              split at h
              · simp at h
              · split at h
                · exact callApiGo_ok_containsKey responses key fuel (attempts + 1)
                    (dictUpdate agg result) d h
                · rename_i hkey
                  cases h
                  simpa using hkey

/-- The retry loop reads only the first `119` responses past the current
attempt counter: two traces that agree there produce identical outcomes. -/
theorem callApiGo_agree (res res' : ℕ → Response) (key : String) :
    ∀ (fuel attempts : ℕ) (agg : Dict),
      (∀ i, attempts < i → i ≤ 119 → res i = res' i) →
      callApiGo res key fuel attempts agg = callApiGo res' key fuel attempts agg
  | 0, _, _ => by intro _; rfl
  | fuel + 1, attempts, agg => by
      intro hag
      have hnext : ∀ i, attempts + 1 < i → i ≤ 119 → res i = res' i :=
        fun i h1 h2 => hag i (by omega) h2
      unfold callApiGo
      by_cases h120 : attempts + 1 ≥ 120
      · simp [h120]
      · have hi : res (attempts + 1) = res' (attempts + 1) :=
          hag _ (Nat.lt_succ_self _) (by omega)
        rw [if_neg h120, if_neg h120, hi]
        by_cases h503 : (res' (attempts + 1)).status = 503
        · simp only [if_pos h503]
          exact callApiGo_agree res res' key fuel (attempts + 1) agg hnext
        · simp only [if_neg h503]
          by_cases h200 : (res' (attempts + 1)).status ≠ 200
          · simp [h200]
          · simp only [if_neg h200]
            cases hj : (res' (attempts + 1)).json with
            | none => rfl
            | some result =>
                by_cases herr : containsKey result "Error Message" = true
                · simp [herr]
                · simp only [herr]
                  by_cases hkey : containsKey result key = true
                  · simp [hkey]
                  · simp only [hkey]
                    simp only [Bool.false_eq_true, not_false_eq_true, if_true, if_false]
                    exact callApiGo_agree res res' key fuel (attempts + 1)
                      (dictUpdate agg result) hnext

/-- C10: `_callApi` is a bounded retry loop — its outcome is a function of at
most the first `119` HTTP responses (so it never issues more than `120`
attempts before the `Too many attempts` error), and it never returns a
response lacking `required_key`. -/
theorem callApi_bounded_and_validated :
    (∀ (res res' : ℕ → Response) (key : String),
      (∀ i, i ≤ 119 → res i = res' i) → callApi res key = callApi res' key) ∧
    (∀ (res : ℕ → Response) (key : String) (d : Dict),
      callApi res key = .ok d → containsKey d key = true) := by
  constructor
  · intro res res' key hag
    exact callApiGo_agree res res' key 120 0 [] (fun i _ h2 => hag i h2)
  · intro res key d h
    exact callApiGo_ok_containsKey res key 120 0 [] d h

/-- Witness for C10 on the constant trace of successful responses carrying
the required key. -/
theorem callApi_bounded_and_validated_witness :
    (∀ i : ℕ, i ≤ 119 →
      (fun _ : ℕ => Response.mk 200 (some [("TS", "1")])) i =
        (fun _ : ℕ => Response.mk 200 (some [("TS", "1")])) i) ∧
    callApi (fun _ : ℕ => Response.mk 200 (some [("TS", "1")])) "TS" =
      callApi (fun _ : ℕ => Response.mk 200 (some [("TS", "1")])) "TS" ∧
    containsKey [("TS", "1")] "TS" = true := by
  refine ⟨fun i _ => rfl, ?_, ?_⟩
  · exact callApi_bounded_and_validated.1 _ _ "TS" (fun i _ => rfl)
  · exact callApi_bounded_and_validated.2
      (fun _ : ℕ => Response.mk 200 (some [("TS", "1")])) "TS" [("TS", "1")] rfl

end Gatherer
